import Mathlib

/-!
Verification development for the target-side RTT (Real-Time Transfer)
implementation.  The ring-buffer channel engine (`src/rtt.rs`), the header
initialization (`src/rtt.rs`, `src/init.rs`) and the terminal multiplexer
(`src/lib.rs`) are shallowly embedded below; bytes are modelled as `Nat`,
the channel byte buffer as a function `Nat → Nat` from ring positions to
byte values, and the while-loops of `RttChannel::read` / `RttChannel::write`
as fuel-indexed structural recursions (the fuel is the length of the
remaining input, which strictly decreases on every loop iteration, so the
fuel never runs out).
-/

namespace RTT

/-- Embedding of `RttChannel` (src/rtt.rs lines 37-45).  The `name` and the
raw buffer pointer are irrelevant to the verified properties; the buffer
content is modelled as a total function from positions to byte values. -/
structure RttChannel where
  size : Nat
  buffer : Nat → Nat
  write : Nat
  read : Nat
  flags : Nat

/-- `RttChannel::readable_contiguous` (src/rtt.rs lines 124-131). -/
def readable_contiguous (size write read : Nat) : Nat :=
  if read > write then size - read else write - read

/-- `RttChannel::writable_contiguous` (src/rtt.rs lines 133-142). -/
def writable_contiguous (size write read : Nat) : Nat :=
  if read > write then read - write - 1
  else if read = 0 then size - write - 1
  else size - write

/-- `RttChannel::read_pointers` (src/rtt.rs lines 151-165): loads both
indices; if either is out of range the stored indices are reset to 0 and
`(0, 0)` is returned. -/
def read_pointers (c : RttChannel) : RttChannel × Nat × Nat :=
  if c.write ≥ c.size ∨ c.read ≥ c.size then
    ({ c with write := 0, read := 0 }, 0, 0)
  else (c, c.write, c.read)

/-- Model of `ptr::copy_nonoverlapping(src, buffer + pos, src.length)`:
the contiguous region `[pos, pos + |src|)` of the buffer is overwritten
with `src`, every other position is untouched. -/
def copyIn (buffer : Nat → Nat) (pos : Nat) (src : List Nat) : Nat → Nat :=
  fun p => if pos ≤ p ∧ p < pos + src.length then src.getD (p - pos) 0 else buffer p

/-- The while-loop of `RttChannel::write` (src/rtt.rs lines 98-117),
with an explicit fuel argument standing for the loop's termination measure
(each iteration consumes at least one input byte). -/
def writeLoop (size : Nat) :
    Nat → (Nat → Nat) → Nat → Nat → List Nat → Nat → ((Nat → Nat) × Nat × Nat)
  | 0, buffer, write, _, _, total => (buffer, write, total)
  | fuel + 1, buffer, write, read, buf, total =>
    if buf.length = 0 then (buffer, write, total)
    else
      let count := min (writable_contiguous size write read) buf.length
      if count = 0 then (buffer, write, total)
      else
        writeLoop size fuel (copyIn buffer write (buf.take count))
          (if size ≤ write + count then 0 else write + count)
          read (buf.drop count) (total + count)

/-- `RttChannel::write` (src/rtt.rs lines 92-122): load the pointers,
run the copy loop, store the new write index, return the byte count. -/
def writeChannel (c : RttChannel) (buf : List Nat) : RttChannel × Nat :=
  let cwr := read_pointers c
  let res := writeLoop cwr.1.size buf.length cwr.1.buffer cwr.2.1 cwr.2.2 buf 0
  ({ cwr.1 with buffer := res.1, write := res.2.1 }, res.2.2)

/-- The while-loop of `RttChannel::read` (src/rtt.rs lines 61-84), with the
same fuel device; the bytes copied out to the caller's buffer are returned
as a list. -/
def readLoop (size : Nat) :
    Nat → (Nat → Nat) → Nat → Nat → Nat → List Nat → (List Nat × Nat)
  | 0, _, _, read, _, acc => (acc, read)
  | fuel + 1, buffer, write, read, outLen, acc =>
    if outLen = 0 then (acc, read)
    else
      let count := min (readable_contiguous size write read) outLen
      if count = 0 then (acc, read)
      else
        readLoop size fuel buffer write
          (if size ≤ read + count then 0 else read + count)
          (outLen - count) (acc ++ (List.range count).map (fun i => buffer (read + i)))

/-- `RttChannel::read` (src/rtt.rs lines 55-89): load the pointers, run the
copy loop, store the new read index; the returned count is the number of
bytes placed into the caller's buffer. -/
def readChannel (c : RttChannel) (outLen : Nat) : RttChannel × List Nat × Nat :=
  let cwr := read_pointers c
  let res := readLoop cwr.1.size outLen cwr.1.buffer cwr.2.1 cwr.2.2 outLen []
  ({ cwr.1 with read := res.2 }, res.1, res.1.length)

/-- Number of unread bytes in flight between `read` and `write` in ring
order (the distance from `read` to `write` modulo `size`). -/
def inFlight (size write read : Nat) : Nat :=
  if read ≤ write then write - read else write + size - read

end RTT

namespace RTT

theorem writeLoop_succ (size fuel : Nat) (buffer : Nat → Nat)
    (write read : Nat) (buf : List Nat) (total : Nat) :
    writeLoop size (fuel + 1) buffer write read buf total =
      if buf.length = 0 then (buffer, write, total)
      else
        let count := min (writable_contiguous size write read) buf.length
        if count = 0 then (buffer, write, total)
        else
          writeLoop size fuel (copyIn buffer write (buf.take count))
            (if size ≤ write + count then 0 else write + count)
            read (buf.drop count) (total + count) := rfl

theorem readLoop_succ (size fuel : Nat) (buffer : Nat → Nat)
    (write read outLen : Nat) (acc : List Nat) :
    readLoop size (fuel + 1) buffer write read outLen acc =
      if outLen = 0 then (acc, read)
      else
        let count := min (readable_contiguous size write read) outLen
        if count = 0 then (acc, read)
        else
          readLoop size fuel buffer write
            (if size ≤ read + count then 0 else read + count)
            (outLen - count)
            (acc ++ (List.range count).map (fun i => buffer (read + i))) := rfl

theorem add_mod_inj (size w a b : Nat) (ha : a < size) (hb : b < size)
    (h : (w + a) % size = (w + b) % size) : a = b := by
  have h2 : a ≡ b [MOD size] := Nat.ModEq.add_left_cancel' w h
  have h3 : a % size = b % size := h2
  rwa [Nat.mod_eq_of_lt ha, Nat.mod_eq_of_lt hb] at h3

theorem inFlight_le {size w r : Nat} (hw : w < size) (hr : r < size) :
    inFlight size w r ≤ size - 1 := by
  unfold inFlight; split <;> omega

theorem writeLoop_zero (size : Nat) (buffer : Nat → Nat)
    (write read : Nat) (buf : List Nat) (total : Nat) :
    writeLoop size 0 buffer write read buf total = (buffer, write, total) := rfl

theorem readLoop_zero (size : Nat) (buffer : Nat → Nat)
    (write read outLen : Nat) (acc : List Nat) :
    readLoop size 0 buffer write read outLen acc = (acc, read) := rfl

theorem getD_take {l : List Nat} {n i : Nat} (h : i < n) :
    (l.take n).getD i 0 = l.getD i 0 := by
  simp [List.getD_eq_getElem?_getD, List.getElem?_take, h]

theorem getD_drop (l : List Nat) (n i : Nat) :
    (l.drop n).getD i 0 = l.getD (n + i) 0 := by
  simp [List.getD_eq_getElem?_getD, List.getElem?_drop]

/-- Closed form of the `RttChannel::write` loop: with in-range indices and
enough fuel, the loop copies exactly `min |buf| free` bytes (where `free`
is the capacity left by the one-slot gap), advances the write cursor by
that amount modulo `size` (so it wraps at most once), writes the copied
bytes at consecutive ring positions starting at `write`, and leaves every
other buffer cell untouched. -/
theorem writeLoop_eq (size : Nat) (fuel : Nat) :
    ∀ (buf : List Nat) (buffer : Nat → Nat) (write read total : Nat),
      write < size → read < size → buf.length ≤ fuel →
      (writeLoop size fuel buffer write read buf total).2.2 =
          total + min buf.length (size - 1 - inFlight size write read) ∧
      (writeLoop size fuel buffer write read buf total).2.1 =
          (write + min buf.length (size - 1 - inFlight size write read)) % size ∧
      (∀ i, i < min buf.length (size - 1 - inFlight size write read) →
          (writeLoop size fuel buffer write read buf total).1 ((write + i) % size)
            = buf.getD i 0) ∧
      (∀ p, (∀ i, i < min buf.length (size - 1 - inFlight size write read) →
              (write + i) % size ≠ p) →
          (writeLoop size fuel buffer write read buf total).1 p = buffer p) := by
  induction fuel with
  | zero =>
    intro buf buffer write read total hw hr hfuel
    have hb : buf.length = 0 := by omega
    have hn : min buf.length (size - 1 - inFlight size write read) = 0 := by omega
    rw [hn, writeLoop_zero]
    exact ⟨by simp, by simp [Nat.mod_eq_of_lt hw],
      fun i hi => absurd hi (Nat.not_lt_zero i), fun p _ => rfl⟩
  | succ fuel ih =>
    intro buf buffer write read total hw hr hfuel
    by_cases hb : buf.length = 0
    · have hn : min buf.length (size - 1 - inFlight size write read) = 0 := by omega
      rw [hn, writeLoop_succ, if_pos hb]
      exact ⟨by simp, by simp [Nat.mod_eq_of_lt hw],
        fun i hi => absurd hi (Nat.not_lt_zero i), fun p _ => rfl⟩
    · by_cases hc0 : min (writable_contiguous size write read) buf.length = 0
      · have hwc0 : writable_contiguous size write read = 0 := by omega
        have hfree : size - 1 - inFlight size write read = 0 := by
          unfold writable_contiguous at hwc0
          unfold inFlight
          split_ifs at hwc0 ⊢ <;> omega
        have hn : min buf.length (size - 1 - inFlight size write read) = 0 := by omega
        rw [hn, writeLoop_succ, if_neg hb, if_pos hc0]
        exact ⟨by simp, by simp [Nat.mod_eq_of_lt hw],
          fun i hi => absurd hi (Nat.not_lt_zero i), fun p _ => rfl⟩
      · -- main branch: at least one byte is copied, then the induction
        -- hypothesis describes the rest of the loop
        generalize hcnt : min (writable_contiguous size write read) buf.length = count at hc0
        have hclen : count ≤ buf.length := by omega
        have hcwc : count ≤ writable_contiguous size write read := by omega
        have hcfree : count ≤ size - 1 - inFlight size write read := by
          unfold writable_contiguous at hcwc
          unfold inFlight
          split_ifs at hcwc ⊢ <;> omega
        have hwcs : write + count ≤ size := by
          unfold writable_contiguous at hcwc
          split_ifs at hcwc <;> omega
        have hw2 : (if size ≤ write + count then 0 else write + count)
            = (write + count) % size := by
          split_ifs with h
          · rw [show write + count = size by omega, Nat.mod_self]
          · rw [Nat.mod_eq_of_lt (by omega)]
        have hw2lt : (write + count) % size < size := Nat.mod_lt _ (by omega)
        have hif2 : inFlight size ((write + count) % size) read
            = inFlight size write read + count := by
          unfold writable_contiguous at hcwc
          unfold inFlight
          rcases Nat.lt_or_ge (write + count) size with h | h
          · rw [Nat.mod_eq_of_lt h]
            split_ifs at hcwc ⊢ <;> omega
          · rw [show write + count = size by omega, Nat.mod_self]
            split_ifs at hcwc ⊢ <;> omega
        obtain ⟨iht, ihw, ihc, ihf⟩ :=
          ih (buf.drop count) (copyIn buffer write (buf.take count))
            ((write + count) % size) read (total + count) hw2lt hr
            (by rw [List.length_drop]; omega)
        rw [List.length_drop, hif2] at iht ihw ihc ihf
        have hnn : count + min (buf.length - count)
              (size - 1 - (inFlight size write read + count))
            = min buf.length (size - 1 - inFlight size write read) := by omega
        rw [writeLoop_succ, if_neg hb, hcnt, if_neg hc0, hw2]
        refine ⟨?_, ?_, ?_, ?_⟩
        · rw [iht]; omega
        · rw [ihw, Nat.mod_add_mod, ← hnn, ← Nat.add_assoc]
        · intro i hi
          rcases Nat.lt_or_ge i count with hic | hic
          · have hpos : write + i < size := by omega
            have hpmod : (write + i) % size = write + i := Nat.mod_eq_of_lt hpos
            rw [hpmod]
            have hframe := ihf (write + i) ?side
            case side =>
              intro j hj heq
              rw [Nat.mod_add_mod] at heq
              have hji : count + j = i := by
                refine add_mod_inj size write (count + j) i (by omega) (by omega) ?_
                rw [← Nat.add_assoc, heq, hpmod]
              omega
            rw [hframe]
            unfold copyIn
            rw [if_pos ⟨by omega, by rw [List.length_take]; omega⟩,
              show write + i - write = i by omega, getD_take hic]
          · have hj : i - count < min (buf.length - count)
                (size - 1 - (inFlight size write read + count)) := by omega
            have hcc := ihc (i - count) hj
            rw [Nat.mod_add_mod, show write + count + (i - count) = write + i by omega,
              getD_drop, show count + (i - count) = i by omega] at hcc
            exact hcc
        · intro p hp
          have hframe := ihf p ?side2
          case side2 =>
            intro j hj heq
            rw [Nat.mod_add_mod] at heq
            exact hp (count + j) (by omega) (by rw [← Nat.add_assoc]; exact heq)
          rw [hframe]
          unfold copyIn
          rw [if_neg ?_]
          rintro ⟨h1, h2⟩
          rw [List.length_take] at h2
          have hi : p - write < count := by omega
          have hplt : p < size := by omega
          exact hp (p - write) (by omega)
            (by rw [show write + (p - write) = p by omega, Nat.mod_eq_of_lt hplt])

/-- Closed form of the `RttChannel::read` loop: with in-range indices and
enough fuel, the loop copies out exactly `min outLen inFlight` bytes, taken
from consecutive ring positions starting at `read`, and advances the read
cursor by that amount modulo `size` (so it wraps at most once). -/
theorem readLoop_eq (size : Nat) (fuel : Nat) :
    ∀ (outLen : Nat) (buffer : Nat → Nat) (write read : Nat) (acc : List Nat),
      write < size → read < size → outLen ≤ fuel →
      readLoop size fuel buffer write read outLen acc =
        (acc ++ (List.range (min outLen (inFlight size write read))).map
            (fun i => buffer ((read + i) % size)),
         (read + min outLen (inFlight size write read)) % size) := by
  induction fuel with
  | zero =>
    intro outLen buffer write read acc hw hr hfuel
    have h0 : outLen = 0 := by omega
    simp [readLoop_zero, h0, Nat.mod_eq_of_lt hr]
  | succ fuel ih =>
    intro outLen buffer write read acc hw hr hfuel
    by_cases h0 : outLen = 0
    · rw [readLoop_succ, if_pos h0]
      simp [h0, Nat.mod_eq_of_lt hr]
    · by_cases hc0 : min (readable_contiguous size write read) outLen = 0
      · have hrc0 : readable_contiguous size write read = 0 := by omega
        have hif0 : inFlight size write read = 0 := by
          unfold readable_contiguous at hrc0
          unfold inFlight
          split_ifs at hrc0 ⊢ <;> omega
        rw [readLoop_succ, if_neg h0, if_pos hc0]
        simp [hif0, Nat.mod_eq_of_lt hr]
      · generalize hcnt : min (readable_contiguous size write read) outLen = count at hc0
        have hcout : count ≤ outLen := by omega
        have hcrc : count ≤ readable_contiguous size write read := by omega
        have hcif : count ≤ inFlight size write read := by
          unfold readable_contiguous at hcrc
          unfold inFlight
          split_ifs at hcrc ⊢ <;> omega
        have hrcs : read + count ≤ size := by
          unfold readable_contiguous at hcrc
          split_ifs at hcrc <;> omega
        have hr2 : (if size ≤ read + count then 0 else read + count)
            = (read + count) % size := by
          split_ifs with h
          · rw [show read + count = size by omega, Nat.mod_self]
          · rw [Nat.mod_eq_of_lt (by omega)]
        have hr2lt : (read + count) % size < size := Nat.mod_lt _ (by omega)
        have hif2 : inFlight size write ((read + count) % size)
            = inFlight size write read - count := by
          unfold readable_contiguous at hcrc
          unfold inFlight
          rcases Nat.lt_or_ge (read + count) size with h | h
          · rw [Nat.mod_eq_of_lt h]
            split_ifs at hcrc ⊢ <;> omega
          · rw [show read + count = size by omega, Nat.mod_self]
            split_ifs at hcrc ⊢ <;> omega
        have ihres := ih (outLen - count) buffer write ((read + count) % size)
          (acc ++ (List.range count).map (fun i => buffer (read + i)))
          hw hr2lt (by omega)
        rw [hif2] at ihres
        have hnn : count + min (outLen - count) (inFlight size write read - count)
            = min outLen (inFlight size write read) := by omega
        rw [readLoop_succ, if_neg h0, hcnt, if_neg hc0, hr2, ihres,
          Prod.mk.injEq]
        constructor
        · rw [← hnn, List.range_add, List.map_append, List.map_map,
            List.append_assoc]
          congr 1
          congr 1
          · refine List.map_congr_left ?_
            intro i hi
            rw [List.mem_range] at hi
            rw [Nat.mod_eq_of_lt (by omega)]
          · refine List.map_congr_left ?_
            intro i hi
            simp only [Function.comp_apply]
            rw [Nat.mod_add_mod, Nat.add_assoc]
        · rw [Nat.mod_add_mod, ← hnn, ← Nat.add_assoc]

theorem read_pointers_in_range (c : RttChannel)
    (hw : c.write < c.size) (hr : c.read < c.size) :
    read_pointers c = (c, c.write, c.read) := by
  unfold read_pointers
  rw [if_neg (by omega)]

/-- `RttChannel::write` at channel level, for in-range indices: the
returned count, the new indices, the field frame, the bytes landed in the
ring and the untouched cells. -/
theorem writeChannel_spec (c : RttChannel) (buf : List Nat)
    (hw : c.write < c.size) (hr : c.read < c.size) :
    (writeChannel c buf).2 =
        min buf.length (c.size - 1 - inFlight c.size c.write c.read) ∧
    (writeChannel c buf).1.write =
        (c.write + min buf.length (c.size - 1 - inFlight c.size c.write c.read))
          % c.size ∧
    (writeChannel c buf).1.read = c.read ∧
    (writeChannel c buf).1.size = c.size ∧
    (writeChannel c buf).1.flags = c.flags ∧
    (∀ i, i < min buf.length (c.size - 1 - inFlight c.size c.write c.read) →
        (writeChannel c buf).1.buffer ((c.write + i) % c.size) = buf.getD i 0) ∧
    (∀ p, (∀ i, i < min buf.length (c.size - 1 - inFlight c.size c.write c.read) →
            (c.write + i) % c.size ≠ p) →
        (writeChannel c buf).1.buffer p = c.buffer p) := by
  obtain ⟨h1, h2, h3, h4⟩ :=
    writeLoop_eq c.size buf.length buf c.buffer c.write c.read 0 hw hr (le_refl _)
  unfold writeChannel
  rw [read_pointers_in_range c hw hr]
  dsimp only
  exact ⟨by rw [h1]; omega, h2, rfl, rfl, rfl, h3, h4⟩

/-- `RttChannel::read` at channel level, for in-range indices: the bytes
returned, the count, the new read index and the frame on the other fields. -/
theorem readChannel_spec (c : RttChannel) (outLen : Nat)
    (hw : c.write < c.size) (hr : c.read < c.size) :
    (readChannel c outLen).2.1 =
        (List.range (min outLen (inFlight c.size c.write c.read))).map
          (fun i => c.buffer ((c.read + i) % c.size)) ∧
    (readChannel c outLen).2.2 = min outLen (inFlight c.size c.write c.read) ∧
    (readChannel c outLen).1.read =
        (c.read + min outLen (inFlight c.size c.write c.read)) % c.size ∧
    (readChannel c outLen).1.write = c.write ∧
    (readChannel c outLen).1.size = c.size ∧
    (readChannel c outLen).1.buffer = c.buffer ∧
    (readChannel c outLen).1.flags = c.flags := by
  have hmain := readLoop_eq c.size outLen outLen c.buffer c.write c.read [] hw hr (le_refl _)
  unfold readChannel
  rw [read_pointers_in_range c hw hr]
  dsimp only
  rw [hmain]
  dsimp only
  exact ⟨by simp, by simp, rfl, rfl, rfl, rfl, rfl⟩

/-- The write index is congruent to the read index plus the bytes in
flight, modulo the ring size. -/
theorem write_as_read_plus {size w r : Nat} (hw : w < size) (hr : r < size)
    (i : Nat) :
    (w + i) % size = (r + (inFlight size w r + i)) % size := by
  unfold inFlight
  split_ifs with h
  · congr 1; omega
  · rw [show r + (w + size - r + i) = size + (w + i) by omega, Nat.add_mod_left]

/-- Up channel of scenario S1: `size = 8`, mode TrimIfFull (`flags = 1`),
buffer empty. -/
def s1Channel : RttChannel := ⟨8, fun _ => 0, 0, 0, 1⟩

/-- **C1.** For every up-channel with in-range indices and every input
slice, the single-shot write copies bytes into the ring leaving the
one-slot gap: the maximum contiguous writable count is `size - write - 1`
when `read = 0`, `read - write - 1` when `read > write`, and `size - write`
otherwise; the loop wraps at most once (the copied count is at most
`size - 1` and the stored write index is `(write + n) % size`), the new
write index is stored afterwards, and the returned count is the number of
bytes actually copied — `min |buf| free` — which can be less than `|buf|`
when the buffer fills. -/
theorem C1_write_single_shot (c : RttChannel) (buf : List Nat)
    (hw : c.write < c.size) (hr : c.read < c.size) :
    writable_contiguous c.size c.write c.read =
        (if c.read = 0 then c.size - c.write - 1
         else if c.read > c.write then c.read - c.write - 1
         else c.size - c.write) ∧
    (writeChannel c buf).2 =
        min buf.length (c.size - 1 - inFlight c.size c.write c.read) ∧
    (writeChannel c buf).2 ≤ buf.length ∧
    (writeChannel c buf).2 ≤ c.size - 1 ∧
    (writeChannel c buf).1.write = (c.write + (writeChannel c buf).2) % c.size ∧
    (∀ i, i < (writeChannel c buf).2 →
        (writeChannel c buf).1.buffer ((c.write + i) % c.size) = buf.getD i 0) := by
  obtain ⟨h1, h2, _, _, _, h6, _⟩ := writeChannel_spec c buf hw hr
  refine ⟨?_, h1, ?_, ?_, ?_, ?_⟩
  · unfold writable_contiguous
    split_ifs <;> omega
  · rw [h1]; omega
  · have := inFlight_le hw hr
    rw [h1]; omega
  · rw [h1, h2]
  · intro i hi
    rw [h1] at hi
    exact h6 i hi

theorem C1_witness :
    s1Channel.write < s1Channel.size ∧ s1Channel.read < s1Channel.size ∧
    (writeChannel s1Channel [72, 69, 76, 76, 79]).2 = 5 ∧
    (writeChannel s1Channel [72, 69, 76, 76, 79]).1.write = 5 := by
  have h := C1_write_single_shot s1Channel [72, 69, 76, 76, 79]
    (by decide) (by decide)
  refine ⟨by decide, by decide, ?_, ?_⟩
  · rw [h.2.1]; decide
  · rw [h.2.2.2.2.1, h.2.1]; decide

/-- Down channel of scenario S5: `size = 8`, the host has stored the bytes
of "abc" at positions 0..2 and advanced `write` to 3. -/
def s5Channel : RttChannel :=
  ⟨8, fun p => if p = 0 then 97 else if p = 1 then 98 else if p = 2 then 99 else 0,
   3, 0, 0⟩

/-- **C2.** For every down-channel with in-range indices and every output
buffer, the read operation copies up to `outLen` bytes in at most two
contiguous segments (first from the read index toward the end of the ring,
then from position 0 up to at most the write index when the data wraps),
stores the new read index after copying, and returns 0 when the buffer is
empty or `outLen = 0`.  The write index is loaded once and the read index
once — in the embedding they are read a single time by `read_pointers`
before the loop — and the function is total, so the operation never
blocks. -/
theorem C2_read_operation (c : RttChannel) (outLen : Nat)
    (hw : c.write < c.size) (hr : c.read < c.size) :
    (readChannel c outLen).2.2 = min outLen (inFlight c.size c.write c.read) ∧
    (readChannel c outLen).2.2 ≤ outLen ∧
    (readChannel c outLen).2.1 =
        (List.range (min (min outLen (inFlight c.size c.write c.read))
            (c.size - c.read))).map (fun i => c.buffer (c.read + i)) ++
        (List.range (min outLen (inFlight c.size c.write c.read)
            - min (min outLen (inFlight c.size c.write c.read))
                (c.size - c.read))).map (fun i => c.buffer i) ∧
    min outLen (inFlight c.size c.write c.read)
        - min (min outLen (inFlight c.size c.write c.read)) (c.size - c.read)
      ≤ c.write ∧
    (readChannel c outLen).1.read =
        (c.read + min outLen (inFlight c.size c.write c.read)) % c.size ∧
    ((c.write = c.read ∨ outLen = 0) → (readChannel c outLen).2.2 = 0) := by
  obtain ⟨hb, ht, hrd, _, _, _, _⟩ := readChannel_spec c outLen hw hr
  have hnif : min outLen (inFlight c.size c.write c.read)
      ≤ inFlight c.size c.write c.read := Nat.min_le_right _ _
  have hifle := inFlight_le hw hr
  have hkn : min (min outLen (inFlight c.size c.write c.read)) (c.size - c.read)
      ≤ min outLen (inFlight c.size c.write c.read) := Nat.min_le_left _ _
  refine ⟨ht, by omega, ?_, ?_, hrd, ?_⟩
  · rw [hb]
    have hsplit : min outLen (inFlight c.size c.write c.read)
        = min (min outLen (inFlight c.size c.write c.read)) (c.size - c.read)
          + (min outLen (inFlight c.size c.write c.read)
              - min (min outLen (inFlight c.size c.write c.read))
                  (c.size - c.read)) := by omega
    conv_lhs => rw [hsplit]
    rw [List.range_add, List.map_append, List.map_map]
    congr 1
    · refine List.map_congr_left ?_
      intro i hi
      rw [List.mem_range] at hi
      have : c.read + i < c.size := by omega
      rw [Nat.mod_eq_of_lt this]
    · refine List.map_congr_left ?_
      intro j hj
      rw [List.mem_range] at hj
      have hkv : min (min outLen (inFlight c.size c.write c.read))
          (c.size - c.read) = c.size - c.read := by omega
      simp only [Function.comp_apply]
      rw [hkv, show c.read + (c.size - c.read + j) = c.size + j by omega,
        Nat.add_mod_left, Nat.mod_eq_of_lt (by omega)]
  · unfold inFlight at hnif ⊢
    split_ifs at hnif ⊢ <;> omega
  · intro h
    rw [ht]
    rcases h with h | h
    · have : inFlight c.size c.write c.read = 0 := by
        unfold inFlight
        split_ifs <;> omega
      omega
    · omega

theorem C2_witness :
    s5Channel.write < s5Channel.size ∧ s5Channel.read < s5Channel.size ∧
    (readChannel s5Channel 2).2.2 = 2 ∧
    (readChannel s5Channel 2).2.1 = [97, 98] ∧
    (readChannel s5Channel 2).1.read = 2 := by
  have h := C2_read_operation s5Channel 2 (by decide) (by decide)
  refine ⟨by decide, by decide, ?_, ?_, ?_⟩
  · rw [h.1]; decide
  · rw [h.2.2.1]; decide
  · rw [h.2.2.2.2.1]; decide

/-- **C3.** Starting from any state with both indices in range on a
channel of size at least 2, both the read and the write operation preserve
the ring invariants: the stored indices stay below `size` and the number
of bytes in flight (the ring distance from `read` to `write`) never
exceeds `size - 1`. -/
theorem C3_ring_invariants (c : RttChannel) (buf : List Nat) (outLen : Nat)
    (hs : 2 ≤ c.size) (hw : c.write < c.size) (hr : c.read < c.size) :
    ((writeChannel c buf).1.write < c.size ∧
     (writeChannel c buf).1.read < c.size ∧
     inFlight c.size (writeChannel c buf).1.write (writeChannel c buf).1.read
       ≤ c.size - 1) ∧
    ((readChannel c outLen).1.write < c.size ∧
     (readChannel c outLen).1.read < c.size ∧
     inFlight c.size (readChannel c outLen).1.write (readChannel c outLen).1.read
       ≤ c.size - 1) := by
  obtain ⟨_, hw2, hw3, _, _, _, _⟩ := writeChannel_spec c buf hw hr
  obtain ⟨_, _, hr3, hr4, _, _, _⟩ := readChannel_spec c outLen hw hr
  have hwlt : (writeChannel c buf).1.write < c.size := by
    rw [hw2]; exact Nat.mod_lt _ (by omega)
  have hrlt : (readChannel c outLen).1.read < c.size := by
    rw [hr3]; exact Nat.mod_lt _ (by omega)
  refine ⟨⟨hwlt, by rw [hw3]; exact hr, inFlight_le hwlt (by rw [hw3]; exact hr)⟩,
    ⟨by rw [hr4]; exact hw, hrlt, inFlight_le (by rw [hr4]; exact hw) hrlt⟩⟩

theorem C3_witness :
    2 ≤ s1Channel.size ∧ s1Channel.write < s1Channel.size ∧
    s1Channel.read < s1Channel.size ∧
    ((writeChannel s1Channel [1, 2, 3]).1.write < s1Channel.size ∧
     (writeChannel s1Channel [1, 2, 3]).1.read < s1Channel.size ∧
     inFlight s1Channel.size (writeChannel s1Channel [1, 2, 3]).1.write
       (writeChannel s1Channel [1, 2, 3]).1.read ≤ s1Channel.size - 1) ∧
    ((readChannel s1Channel 4).1.write < s1Channel.size ∧
     (readChannel s1Channel 4).1.read < s1Channel.size ∧
     inFlight s1Channel.size (readChannel s1Channel 4).1.write
       (readChannel s1Channel 4).1.read ≤ s1Channel.size - 1) := by
  have h := C3_ring_invariants s1Channel [1, 2, 3] 4 (by decide) (by decide) (by decide)
  exact ⟨by decide, by decide, by decide, h.1, h.2⟩

/-- **C9.** For every up-channel state with in-range indices, the write
operation never modifies the stored read index, preserves every buffer
cell holding unread bytes (the positions from the read index up to but
excluding the write index in ring order), and modifies only buffer cells
inside the free region of the ring (the positions reached from the write
index before the read index in ring order). -/
theorem C9_write_frame (c : RttChannel) (buf : List Nat)
    (hw : c.write < c.size) (hr : c.read < c.size) :
    (writeChannel c buf).1.read = c.read ∧
    (∀ k, k < inFlight c.size c.write c.read →
        (writeChannel c buf).1.buffer ((c.read + k) % c.size)
          = c.buffer ((c.read + k) % c.size)) ∧
    (∀ p, (∀ j, j < c.size - inFlight c.size c.write c.read →
            (c.write + j) % c.size ≠ p) →
        (writeChannel c buf).1.buffer p = c.buffer p) := by
  obtain ⟨_, _, h3, _, _, _, h7⟩ := writeChannel_spec c buf hw hr
  have hifle := inFlight_le hw hr
  refine ⟨h3, ?_, ?_⟩
  · intro k hk
    refine h7 _ ?_
    intro i hi heq
    rw [write_as_read_plus hw hr i] at heq
    have := add_mod_inj c.size c.read
      (inFlight c.size c.write c.read + i) k (by omega) (by omega) heq
    omega
  · intro p hp
    refine h7 p ?_
    intro i hi
    exact hp i (by omega)

theorem C9_witness :
    s5Channel.write < s5Channel.size ∧ s5Channel.read < s5Channel.size ∧
    (writeChannel s5Channel [65, 66]).1.read = s5Channel.read ∧
    (writeChannel s5Channel [65, 66]).1.buffer 0 = s5Channel.buffer 0 ∧
    (writeChannel s5Channel [65, 66]).1.buffer 1 = s5Channel.buffer 1 ∧
    (writeChannel s5Channel [65, 66]).1.buffer 2 = s5Channel.buffer 2 := by
  have h := C9_write_frame s5Channel [65, 66] (by decide) (by decide)
  refine ⟨by decide, by decide, h.1, ?_, ?_, ?_⟩
  · have := h.2.1 0 (by decide)
    simpa using this
  · have := h.2.1 1 (by decide)
    simpa using this
  · have := h.2.1 2 (by decide)
    simpa using this

/-- Channel of scenario S6: `size = 8` with the read index corrupted by
the host to 99. -/
def corruptChannel : RttChannel := ⟨8, fun _ => 0, 0, 99, 0⟩

/-- **C4.** If either stored index is observed out of range at the start
of an operation, the operation resets both indices to 0 and proceeds as if
the buffer were empty (it behaves exactly as on the channel with both
indices zeroed); in particular on a size-8 channel whose read index was
set to 99 by the host, the next one-byte write returns 1 and leaves
`write = 1` and `read = 0`. -/
theorem C4_corruption_reset (c : RttChannel) (buf : List Nat) (outLen : Nat)
    (h : c.write ≥ c.size ∨ c.read ≥ c.size) :
    writeChannel c buf = writeChannel { c with write := 0, read := 0 } buf ∧
    readChannel c outLen = readChannel { c with write := 0, read := 0 } outLen ∧
    (writeChannel corruptChannel [65]).2 = 1 ∧
    (writeChannel corruptChannel [65]).1.write = 1 ∧
    (writeChannel corruptChannel [65]).1.read = 0 := by
  have hc : read_pointers c = ({ c with write := 0, read := 0 }, 0, 0) := by
    unfold read_pointers
    rw [if_pos h]
  have hc2 : read_pointers { c with write := 0, read := 0 }
      = ({ c with write := 0, read := 0 }, 0, 0) := by
    unfold read_pointers
    split <;> rfl
  refine ⟨?_, ?_, by decide, by decide, by decide⟩
  · unfold writeChannel
    rw [hc, hc2]
  · unfold readChannel
    rw [hc, hc2]

theorem C4_witness :
    (corruptChannel.write ≥ corruptChannel.size ∨
      corruptChannel.read ≥ corruptChannel.size) ∧
    (writeChannel corruptChannel [65]).2 = 1 ∧
    (writeChannel corruptChannel [65]).1.write = 1 ∧
    (writeChannel corruptChannel [65]).1.read = 0 := by
  have h := C4_corruption_reset corruptChannel [65] 1 (by decide)
  exact ⟨by decide, h.2.2.1, h.2.2.2.1, h.2.2.2.2⟩

/-- First half of the id written by `RttHeader::init` (src/rtt.rs line 23):
the 9 bytes of "SEGGER R_". -/
def idPart1 : List Nat := [83, 69, 71, 71, 69, 82, 32, 82, 95]

/-- Second half of the id (src/rtt.rs lines 25-29): the 8 bytes of
"TT\0\0\0\0\0\0", written at offset 8, overlapping the first half. -/
def idPart2 : List Nat := [84, 84, 0, 0, 0, 0, 0, 0]

/-- The discovery signature: the ASCII bytes of "SEGGER RTT" followed by
six zero bytes. -/
def signature : List Nat :=
  [83, 69, 71, 71, 69, 82, 32, 82, 84, 84, 0, 0, 0, 0, 0, 0]

/-- Model of `ptr::copy_nonoverlapping(src, id + pos, |src|)` on the
16-byte id array, as a list overwrite. -/
def listCopy (dst : List Nat) (pos : Nat) (src : List Nat) : List Nat :=
  dst.take pos ++ src ++ dst.drop (pos + src.length)

/-- The two overlapping id copies performed by `RttHeader::init`
(src/rtt.rs lines 20-33). -/
def headerInitId (id : List Nat) : List Nat :=
  listCopy (listCopy id 0 idPart1) 8 idPart2

/-- **C7.** After header initialization completes, the 16-byte id field
equals exactly the ASCII bytes of "SEGGER RTT" followed by six zero bytes,
even though the bytes are written in two overlapping halves and regardless
of the previous content of the id field. -/
theorem C7_header_id_signature (id : List Nat) (h : id.length = 16) :
    headerInitId id = signature := by
  have hd16 : List.drop 7 (id.drop 9) = [] := by
    rw [List.drop_drop]
    apply List.drop_eq_nil_of_le
    omega
  have h1 : listCopy id 0 idPart1 = idPart1 ++ id.drop 9 := by
    simp [listCopy, idPart1]
  rw [headerInitId, h1, listCopy,
    List.take_append_eq_append_take, List.drop_append_eq_append_drop]
  have l1 : idPart1.length = 9 := rfl
  have l2 : idPart2.length = 8 := rfl
  rw [l1, l2]
  norm_num [hd16]
  decide

theorem C7_witness :
    (List.replicate 16 0).length = 16 ∧
    headerInitId (List.replicate 16 0) = signature :=
  ⟨by decide, C7_header_id_signature (List.replicate 16 0) (by decide)⟩

/-- Snapshot of the control-block state during `rtt_init`
(src/init.rs lines 138-146): the id bytes, the channel counts and how many
up/down channel descriptors have been populated so far. -/
structure InitState where
  id : List Nat
  maxUp : Nat
  maxDown : Nat
  upPopulated : Nat
  downPopulated : Nat
deriving DecidableEq

/-- State after `ptr::write_bytes(_SEGGER_RTT.as_mut_ptr(), 0, 1)`
(src/init.rs line 139): everything zeroed. -/
def initZero : InitState := ⟨List.replicate 16 0, 0, 0, 0, 0⟩

/-- State after the first id half-copy inside `RttHeader::init`. -/
def initAfterFirstCopy : InitState :=
  { initZero with id := listCopy initZero.id 0 idPart1 }

/-- State after the second id half-copy inside `RttHeader::init`; the
counts and the channel descriptors are not yet populated. -/
def initAfterSecondCopy : InitState :=
  { initAfterFirstCopy with id := listCopy initAfterFirstCopy.id 8 idPart2 }

/-- State after `max_up_channels.set` inside `RttHeader::init`. -/
def initAfterMaxUp (nUp : Nat) : InitState :=
  { initAfterSecondCopy with maxUp := nUp }

/-- State after `max_down_channels.set`, completing `RttHeader::init`
(src/init.rs line 143). -/
def initAfterMaxDown (nUp nDown : Nat) : InitState :=
  { initAfterMaxUp nUp with maxDown := nDown }

/-- The states reached from the second id copy on: the rest of
`RttHeader::init` and then the per-channel `rtt_init_channels!` loop
(src/init.rs lines 145-146), which populates one descriptor at a time. -/
def tailTrace (nUp nDown : Nat) : List InitState :=
  [initAfterSecondCopy, initAfterMaxUp nUp, initAfterMaxDown nUp nDown] ++
  (List.range nUp).map
    (fun i => { initAfterMaxDown nUp nDown with upPopulated := i + 1 }) ++
  (List.range nDown).map
    (fun i => { initAfterMaxDown nUp nDown with
        upPopulated := nUp, downPopulated := i + 1 })

/-- The full sequence of intermediate states of `rtt_init` for a block
with `nUp` up channels and `nDown` down channels, in program order. -/
def initTrace (nUp nDown : Nat) : List InitState :=
  initZero :: initAfterFirstCopy :: tailTrace nUp nDown

/-- The control block is fully populated: counts stored and every declared
channel descriptor initialized. -/
def descriptorsReady (nUp nDown : Nat) (s : InitState) : Prop :=
  s.maxUp = nUp ∧ s.maxDown = nDown ∧
  s.upPopulated = nUp ∧ s.downPopulated = nDown

instance (nUp nDown : Nat) (s : InitState) :
    Decidable (descriptorsReady nUp nDown s) := by
  unfold descriptorsReady
  infer_instance

/-- **C8 counterexample.** In `rtt_init` for one up channel, the state
right after the two id half-copies of `RttHeader::init` is an intermediate
step at which neither the counts nor the channel descriptors are populated,
yet the id field already holds the complete signature: the signature is
written before the channel descriptors, not last. -/
theorem C8_counterexample :
    initAfterSecondCopy ∈ initTrace 1 0 ∧
    ¬ descriptorsReady 1 0 initAfterSecondCopy ∧
    initAfterSecondCopy.id = signature := by
  refine ⟨by decide, by decide, by decide⟩

/-- **C8 amended.** The id field never holds the complete signature in the
zeroed initial state or after only the first half-copy (so the full string
never appears in the image and a scan before the copies fails benignly),
and from the second half-copy onward — including the steps at which the
counts and channel descriptors are not yet populated — it always holds the
complete signature. -/
theorem C8_signature_from_second_copy (nUp nDown : Nat) (s : InitState)
    (hmem : s ∈ (initTrace nUp nDown).drop 2) :
    initZero.id ≠ signature ∧ initAfterFirstCopy.id ≠ signature ∧
    s.id = signature := by
  refine ⟨by decide, by decide, ?_⟩
  have htail : (initTrace nUp nDown).drop 2 = tailTrace nUp nDown := rfl
  rw [htail] at hmem
  simp only [tailTrace, List.mem_append, List.mem_cons, List.mem_map,
    List.mem_range, List.not_mem_nil, or_false] at hmem
  rcases hmem with ((rfl | rfl | rfl) | ⟨i, _, rfl⟩) | ⟨i, _, rfl⟩ <;> rfl

theorem C8_witness :
    initAfterMaxUp 1 ∈ (initTrace 1 0).drop 2 ∧
    (initZero.id ≠ signature ∧ initAfterFirstCopy.id ≠ signature ∧
      (initAfterMaxUp 1).id = signature) :=
  ⟨by decide, C8_signature_from_second_copy 1 0 (initAfterMaxUp 1) (by decide)⟩

/-- `ChannelMode` (src/lib.rs lines 190-204): 0 NoBlockSkip (SkipIfFull),
1 NoBlockTrim (TrimIfFull), 2 BlockIfFull. -/
inductive ChannelMode
  | NoBlockSkip
  | NoBlockTrim
  | BlockIfFull
deriving DecidableEq

/-- Modelled from the spec: the channel mode accessor used by
`TerminalChannel::write` — its implementation (`RttChannel::mode`) is not
among the sources at hand; the spec gives the encoding `flags & 0b11`
with 0 SkipIfFull, 1 TrimIfFull, 2 BlockIfFull. -/
def channelMode (c : RttChannel) : ChannelMode :=
  match c.flags % 4 with
  | 0 => ChannelMode.NoBlockSkip
  | 1 => ChannelMode.NoBlockTrim
  | _ => ChannelMode.BlockIfFull

/-- Modelled from the spec: the writer transaction `RttWriter` — its
implementation is not among the sources at hand.  Per spec section 4.2 it
captures the channel's current write index as a local cursor together
with a failed flag. -/
structure RttWriter where
  chan : RttChannel
  write : Nat
  failed : Bool

/-- Modelled from the spec: opening a writer transaction against a
channel captures the current write index as the local cursor. -/
def mkWriter (c : RttChannel) : RttWriter := ⟨c, c.write, false⟩

/-- Free bytes available to the writer at its cursor, leaving the
one-slot gap against the channel's live read index. -/
def writerFree (w : RttWriter) : Nat :=
  w.chan.size - 1 - inFlight w.chan.size w.write w.chan.read

/-- Byte-by-byte ring store at the cursor: writer buffer copies go
straight to the shared channel memory, wrapping modulo the ring size. -/
def ringStore (size : Nat) (buffer : Nat → Nat) (pos : Nat) :
    List Nat → (Nat → Nat)
  | [] => buffer
  | b :: rest =>
      ringStore size (fun p => if p = pos % size then b else buffer p)
        ((pos + 1) % size) rest

/-- Append bytes at the writer's local cursor and advance the cursor. -/
def writerPut (w : RttWriter) (bytes : List Nat) : RttWriter :=
  { w with
      chan := { w.chan with
        buffer := ringStore w.chan.size w.chan.buffer w.write bytes },
      write := (w.write + bytes.length) % w.chan.size }

/-- Modelled from the spec: `RttWriter::write_with_mode` (spec section
4.2) — not among the sources at hand.  SkipIfFull publishes nothing and
sets `failed` when the slice does not fit; TrimIfFull appends the prefix
that fits; BlockIfFull spins until the host frees space, which in this
sequential model (where the host never moves `read` mid-operation) is
represented by `none` when the slice does not fit.  Once `failed` is set,
appends are no-ops. -/
def write_with_mode (mode : ChannelMode) (w : RttWriter) (bytes : List Nat) :
    Option RttWriter :=
  if w.failed then some w
  else
    match mode with
    | ChannelMode.NoBlockSkip =>
        if bytes.length ≤ writerFree w then some (writerPut w bytes)
        else some { w with failed := true }
    | ChannelMode.NoBlockTrim =>
        some (writerPut w (bytes.take (writerFree w)))
    | ChannelMode.BlockIfFull =>
        if bytes.length ≤ writerFree w then some (writerPut w bytes) else none

/-- Modelled from the spec: the commit performed when a writer is dropped
(spec section 4.2): a single store of the local cursor to the channel's
write index, skipped when the transaction failed. -/
def writerCommit (w : RttWriter) : RttChannel :=
  if w.failed then w.chan else { w.chan with write := w.write }

/-- `TERMINAL_ID` (src/lib.rs line 236): the bytes of "0123456789ABCDEF". -/
def TERMINAL_ID : List Nat :=
  [48, 49, 50, 51, 52, 53, 54, 55, 56, 57, 65, 66, 67, 68, 69, 70]

/-- `TerminalChannel` (src/lib.rs lines 216-219). -/
structure TerminalChannel where
  channel : RttChannel
  current : Nat

/-- The mode used for the terminal switch escape (src/lib.rs lines
242-247): NoBlockTrim is forced to NoBlockSkip, the other modes pass
through unchanged. -/
def escapeMode (mode : ChannelMode) : ChannelMode :=
  if mode = ChannelMode.NoBlockTrim then ChannelMode.NoBlockSkip else mode

/-- The escape bytes passed to `write_with_mode` (src/lib.rs line 249):
`0xff` followed by `TERMINAL_ID[number & 0x0f]`. -/
def escapeSeq (number : Nat) : List Nat :=
  [0xff, TERMINAL_ID.getD (Nat.land number 0x0f) 0]

/-- `TerminalWriter` (src/lib.rs lines 270-274); the borrowed `current`
pointer is modelled by `terminalWriterDrop` acting on the terminal state. -/
structure TerminalWriter where
  writer : RttWriter
  number : Nat

/-- `TerminalChannel::write` (src/lib.rs lines 235-255): open a writer;
when the target terminal differs from `current`, write the escape with
the adjusted mode and then set `current := number` (line 251); return the
writer for the payload.  A `none` result models a BlockIfFull escape that
spins forever. -/
def terminalChannelWrite (tc : TerminalChannel) (number : Nat) :
    Option (TerminalChannel × TerminalWriter) :=
  if number ≠ tc.current then
    match write_with_mode (escapeMode (channelMode tc.channel))
        (mkWriter tc.channel) (escapeSeq number) with
    | none => none
    | some w' => some ({ tc with current := number }, ⟨w', number⟩)
  else some (tc, ⟨mkWriter tc.channel, number⟩)

/-- `Drop for TerminalWriter` (src/lib.rs lines 292-298) followed by the
drop of the inner writer: set `current` to the target terminal unless the
writer failed, then commit the writer to the channel. -/
def terminalWriterDrop (tc : TerminalChannel) (tw : TerminalWriter) :
    TerminalChannel :=
  { channel := writerCommit tw.writer,
    current := if tw.writer.failed then tc.current else tw.number }

/-- A complete write to a terminal: open the writer (emitting the escape
when switching), append the payload with the channel's own mode, drop. -/
def terminalWriteOp (tc : TerminalChannel) (number : Nat)
    (payload : List Nat) : Option TerminalChannel :=
  match terminalChannelWrite tc number with
  | none => none
  | some (tc1, tw) =>
      match write_with_mode (channelMode tc1.channel) tw.writer payload with
      | none => none
      | some w' => some (terminalWriterDrop tc1 ⟨w', tw.number⟩)

theorem escapeMode_ne_trim (m : ChannelMode) :
    escapeMode m ≠ ChannelMode.NoBlockTrim := by
  cases m <;> decide

theorem ringStore_two (size : Nat) (buffer : Nat → Nat) (pos a b : Nat)
    (hs : 2 ≤ size) :
    ringStore size buffer pos [a, b] (pos % size) = a ∧
    ringStore size buffer pos [a, b] ((pos + 1) % size) = b := by
  have hne : pos % size ≠ (pos + 1) % size := by
    intro h
    have h2 : (pos + 0) % size = (pos + 1) % size := by simpa using h
    have := add_mod_inj size pos 0 1 (by omega) (by omega) h2
    omega
  constructor
  · simp only [ringStore, Nat.mod_mod_of_dvd _ dvd_rfl]
    rw [if_neg hne]
    simp
  · simp only [ringStore, Nat.mod_mod_of_dvd _ dvd_rfl]
    simp

/-- A two-byte `write_with_mode` on a fresh writer in a non-trim mode is
all-or-nothing: either the writer fails with nothing placed, or both bytes
sit at consecutive ring positions and the cursor advanced by two. -/
theorem write_with_mode_two_bytes (mode : ChannelMode) (w : RttWriter)
    (a b : Nat) (hm : mode ≠ ChannelMode.NoBlockTrim) (hf : w.failed = false)
    (w' : RttWriter) (h : write_with_mode mode w [a, b] = some w') :
    (w'.failed = true ∧ w'.write = w.write ∧ w'.chan = w.chan) ∨
    (w'.failed = false ∧ w'.write = (w.write + 2) % w.chan.size ∧
      w'.chan.buffer (w.write % w.chan.size) = a ∧
      w'.chan.buffer ((w.write + 1) % w.chan.size) = b) := by
  cases mode with
  | NoBlockTrim => exact absurd rfl hm
  | NoBlockSkip =>
    simp only [write_with_mode, hf, Bool.false_eq_true, if_false] at h
    split at h
    · rename_i hfit
      injection h with h2
      subst h2
      have hsz : 3 ≤ w.chan.size := by
        unfold writerFree at hfit
        simp only [List.length_cons, List.length_nil] at hfit
        omega
      obtain ⟨hb1, hb2⟩ := ringStore_two w.chan.size w.chan.buffer w.write a b
        (by omega)
      exact Or.inr ⟨hf, by simp [writerPut], hb1, hb2⟩
    · injection h with h2
      subst h2
      exact Or.inl ⟨rfl, rfl, rfl⟩
  | BlockIfFull =>
    simp only [write_with_mode, hf, Bool.false_eq_true, if_false] at h
    split at h
    · rename_i hfit
      injection h with h2
      subst h2
      have hsz : 3 ≤ w.chan.size := by
        unfold writerFree at hfit
        simp only [List.length_cons, List.length_nil] at hfit
        omega
      obtain ⟨hb1, hb2⟩ := ringStore_two w.chan.size w.chan.buffer w.write a b
        (by omega)
      exact Or.inr ⟨hf, by simp [writerPut], hb1, hb2⟩
    · exact Option.noConfusion h

/-- **C6.** When a terminal switch escape must be emitted, it is written
via `write_with_mode` with the mode forced to NoBlockSkip if the channel's
current mode is NoBlockTrim, while NoBlockSkip and BlockIfFull are passed
through unchanged; consequently the two escape bytes are never truncated:
whenever the operation returns, either the writer failed and nothing was
placed at the cursor, or both escape bytes sit at consecutive ring
positions. -/
theorem C6_escape_never_truncated (tc : TerminalChannel) (number : Nat)
    (hn : number ≠ tc.current) (tc' : TerminalChannel) (tw : TerminalWriter)
    (h : terminalChannelWrite tc number = some (tc', tw)) :
    escapeMode ChannelMode.NoBlockTrim = ChannelMode.NoBlockSkip ∧
    escapeMode ChannelMode.NoBlockSkip = ChannelMode.NoBlockSkip ∧
    escapeMode ChannelMode.BlockIfFull = ChannelMode.BlockIfFull ∧
    ((tw.writer.failed = true ∧ tw.writer.write = tc.channel.write ∧
        tw.writer.chan = tc.channel) ∨
     (tw.writer.failed = false ∧
        tw.writer.write = (tc.channel.write + 2) % tc.channel.size ∧
        tw.writer.chan.buffer (tc.channel.write % tc.channel.size) = 0xff ∧
        tw.writer.chan.buffer ((tc.channel.write + 1) % tc.channel.size)
          = TERMINAL_ID.getD (Nat.land number 0x0f) 0)) := by
  refine ⟨rfl, rfl, rfl, ?_⟩
  unfold terminalChannelWrite at h
  rw [if_pos hn] at h
  split at h
  · exact Option.noConfusion h
  · rename_i w' heq
    injection h with h2
    have htw : tw = ⟨w', number⟩ := (congrArg Prod.snd h2).symm
    subst htw
    unfold escapeSeq at heq
    exact write_with_mode_two_bytes (escapeMode (channelMode tc.channel))
      (mkWriter tc.channel) 0xff (TERMINAL_ID.getD (Nat.land number 0x0f) 0)
      (escapeMode_ne_trim _) rfl w' heq

/-- Terminal used in the C6 witness: a size-8 empty channel in NoBlockTrim
mode, currently at terminal 0. -/
def trimTerminal : TerminalChannel := ⟨⟨8, fun _ => 0, 0, 0, 1⟩, 0⟩

def trimTerminalRes : TerminalChannel × TerminalWriter :=
  (terminalChannelWrite trimTerminal 3).getD
    (trimTerminal, ⟨mkWriter trimTerminal.channel, 0⟩)

set_option maxRecDepth 4000 in
theorem C6_witness :
    (3 ≠ trimTerminal.current) ∧
    terminalChannelWrite trimTerminal 3 = some trimTerminalRes ∧
    ((trimTerminalRes.2.writer.failed = true ∧
        trimTerminalRes.2.writer.write = trimTerminal.channel.write ∧
        trimTerminalRes.2.writer.chan = trimTerminal.channel) ∨
     (trimTerminalRes.2.writer.failed = false ∧
        trimTerminalRes.2.writer.write
          = (trimTerminal.channel.write + 2) % trimTerminal.channel.size ∧
        trimTerminalRes.2.writer.chan.buffer
          (trimTerminal.channel.write % trimTerminal.channel.size) = 0xff ∧
        trimTerminalRes.2.writer.chan.buffer
          ((trimTerminal.channel.write + 1) % trimTerminal.channel.size)
          = TERMINAL_ID.getD (Nat.land 3 0x0f) 0)) := by
  refine ⟨by decide, rfl, ?_⟩
  exact (C6_escape_never_truncated trimTerminal 3 (by decide)
    trimTerminalRes.1 trimTerminalRes.2 rfl).2.2.2

theorem land_fifteen (m : Nat) : Nat.land m 15 = m % 16 := by
  have h1 : ∀ i, (Nat.land m 15).testBit i = (m % 16).testBit i := by
    intro i
    rw [show (16 : Nat) = 2 ^ 4 by norm_num, Nat.testBit_mod_two_pow]
    rw [show Nat.land m 15 = m &&& (2 ^ 4 - 1) from rfl, Nat.testBit_and,
      Nat.testBit_two_pow_sub_one]
    rw [Bool.and_comm]
  exact Nat.eq_of_testBit_eq h1

/-- **C10.** For every terminal number argument, including values greater
than 15, the emitted escape carries as its second byte the ASCII hex digit
of the number reduced modulo 16 (`number & 0x0f`), while the terminal
state `current` is set to the full unreduced number. -/
theorem C10_terminal_number_reduced (tc : TerminalChannel) (number : Nat)
    (hn : number ≠ tc.current)
    (tc' : TerminalChannel) (tw : TerminalWriter)
    (h : terminalChannelWrite tc number = some (tc', tw)) :
    escapeSeq number = [0xff, TERMINAL_ID.getD (number % 16) 0] ∧
    tc'.current = number := by
  constructor
  · unfold escapeSeq
    rw [land_fifteen number]
  · unfold terminalChannelWrite at h
    rw [if_pos hn] at h
    split at h
    · exact Option.noConfusion h
    · rename_i w' heq
      injection h with h2
      have htc : ({ tc with current := number } : TerminalChannel) = tc' :=
        congrArg Prod.fst h2
      rw [← htc]

/-- Terminal used in the C10 witness: a size-8 empty channel in
NoBlockSkip mode, currently at terminal 0. -/
def skipTerminal : TerminalChannel := ⟨⟨8, fun _ => 0, 0, 0, 0⟩, 0⟩

def skipTerminalRes : TerminalChannel × TerminalWriter :=
  (terminalChannelWrite skipTerminal 26).getD
    (skipTerminal, ⟨mkWriter skipTerminal.channel, 0⟩)

set_option maxRecDepth 4000 in
theorem C10_witness :
    (26 ≠ skipTerminal.current) ∧
    terminalChannelWrite skipTerminal 26 = some skipTerminalRes ∧
    escapeSeq 26 = [0xff, TERMINAL_ID.getD (26 % 16) 0] ∧
    skipTerminalRes.1.current = 26 := by
  have h := C10_terminal_number_reduced skipTerminal 26 (by decide)
    skipTerminalRes.1 skipTerminalRes.2 rfl
  exact ⟨by decide, rfl, h.1, h.2⟩

/-- Up channel for the C5 failing input: size 4, mode NoBlockSkip
(`flags = 0`), three unread bytes in flight, so not even the two escape
bytes fit (the free capacity with the one-slot gap is 0). -/
def fullSkipChannel : RttChannel := ⟨4, fun _ => 0, 3, 0, 0⟩

/-- Terminal state on that channel, currently at terminal 0. -/
def fullSkipTerminal : TerminalChannel := ⟨fullSkipChannel, 0⟩

/-- **C5 (failing-input evaluation).** On a full NoBlockSkip channel, a
complete write to terminal 1 skips the escape — the writer fails and
nothing is published, the stored write index stays 3 — yet the terminal
state `current` still advances from 0 to 1, because
`TerminalChannel::write` (src/lib.rs line 251) assigns `current`
unconditionally right after the escape attempt, making the
`is_failed` guard of `Drop for TerminalWriter` (src/lib.rs lines 292-298)
dead code.  This contradicts the claim that `current` is unchanged when
nothing was published. -/
theorem C5_current_advances_without_publish :
    (terminalWriteOp fullSkipTerminal 1 []).map
        (fun tc => (tc.current, tc.channel.write, tc.channel.read))
      = some (1, 3, 0) ∧
    fullSkipTerminal.current = 0 :=
  ⟨by decide, rfl⟩

end RTT
